import Mathlib

/-!
Verification of the OCR response normalization and result-delivery pipeline
of `bot.py` (a Telegram OCR bot).

Strings are modelled as `List Char` (a Python `str` is a sequence of
characters).  Python string primitives used by the source are embedded as
executable Lean functions:

* `pyReplace`      models `str.replace(old, new)` (all non-overlapping
                   occurrences, scanned left to right);
* `splitNl`        models `str.split("\n")`;
* `joinSep`        models `sep.join(list)`;
* `containsSub`    models `pat in s` (substring containment);
* `lowerStr`       models `str.lower()` (ASCII case folding);
* `List.isPrefixOf` models `str.startswith(pat)`.

The provider's per-page response objects expose attributes dynamically
(`hasattr` checks in the source); a page is therefore modelled with
`Option` fields, `isSome` meaning the attribute is present.
-/

/-- Number of occurrences of a character in a character list. -/
def charCount (c : Char) : List Char → Nat
  | [] => 0
  | x :: xs => (if x = c then 1 else 0) + charCount c xs

/-- Python `pat in s`: `pat` occurs as a contiguous substring of `s`. -/
def containsSub (pat : List Char) : List Char → Bool
  | [] => pat.isEmpty
  | c :: cs => pat.isPrefixOf (c :: cs) || containsSub pat cs

/-- Fuel-indexed worker for `pyReplace`; structural recursion on the fuel
keeps the function kernel-computable.  The fuel is always at least the
length of the remaining string, so the `0, _ :: _` branch is unreachable. -/
def pyReplaceAux (pat rep : List Char) : Nat → List Char → List Char
  | _, [] => if pat = [] then rep else []
  | 0, _ :: _ => []
  | fuel + 1, c :: cs =>
    if pat = [] then rep ++ c :: pyReplaceAux pat rep fuel cs
    else if pat.isPrefixOf (c :: cs) then
      rep ++ pyReplaceAux pat rep fuel (List.drop (pat.length - 1) cs)
    else c :: pyReplaceAux pat rep fuel cs

/-- Python `s.replace(pat, rep)`: replace every non-overlapping occurrence
of `pat` in `s` by `rep`, scanning left to right. -/
def pyReplace (pat rep s : List Char) : List Char :=
  pyReplaceAux pat rep s.length s

/-- Python `s.split("\n")`. -/
def splitNl : List Char → List (List Char)
  | [] => [[]]
  | c :: cs =>
    if c = '\n' then [] :: splitNl cs
    else
      match splitNl cs with
      | [] => [[c]]
      | l :: ls => (c :: l) :: ls

/-- Python `sep.join(parts)`. -/
def joinSep (sep : List Char) : List (List Char) → List Char
  | [] => []
  | [s] => s
  | s :: rest => s ++ sep ++ joinSep sep rest

/-- Python `s.lower()` (character-wise case folding; the source only
compares against ASCII extension strings). -/
def lowerStr (s : List Char) : List Char :=
  s.map Char.toLower

/-- One embedded image of an OCR page (`img.id`, `img.image_base64`). -/
structure OcrImage where
  id : List Char
  image_base64 : List Char

/-- One page of the provider's OCR response.  `none` models an absent
attribute (`hasattr(page, ...)` false in the source); `paragraphs` holds
the `paragraph.text` strings in order. -/
structure OcrPage where
  paragraphs : Option (List (List Char))
  markdown : Option (List Char)
  images : Option (List OcrImage)

/-- `bot.py` lines 196-198: `for paragraph in page.paragraphs:
text_content += paragraph.text + "\n"`. -/
def paraText : List (List Char) → List Char
  | [] => []
  | t :: ts => t ++ '\n' :: paraText ts

/-- `bot.py` line 204:
`md_text.replace("# ", "").replace("## ", "").replace("### ", "")`. -/
def stripHeadings (md : List Char) : List Char :=
  pyReplace "### ".data [] (pyReplace "## ".data [] (pyReplace "# ".data [] md))

/-- `bot.py` line 206: a line dropped by the plain-text view
(`line.startswith("![")` or `line.startswith("<img")`). -/
def isImageLine (l : List Char) : Bool :=
  "![".data.isPrefixOf l || "<img".data.isPrefixOf l

/-- `bot.py` line 206: `"\n".join([line for line in md_text.split("\n")
if not line.startswith("![") and not line.startswith("<img")])`. -/
def dropImageLines (md : List Char) : List Char :=
  joinSep ['\n'] ((splitNl md).filter (fun l => !(isImageLine l)))

/-- The text a single page adds to `text_content` before the unconditional
trailing `"\n"` of each loop iteration (`bot.py` lines 194-207). -/
def pagePlain (p : OcrPage) : List Char :=
  match p.paragraphs with
  | some ps => paraText ps
  | none =>
    match p.markdown with
    | some md => dropImageLines (stripHeadings md) ++ ['\n']
    | none => []

/-- `bot.py` lines 193-208: the full plain-text transcript; each page's
contribution is followed by the `text_content += "\n"` of line 208. -/
def text_content : List OcrPage → List Char
  | [] => []
  | p :: ps => pagePlain p ++ '\n' :: text_content ps

/-- The claim's per-page text `T_i`: paragraph texts joined by line
breaks, or the heading-stripped image-free markdown, or empty. -/
def pageT (p : OcrPage) : List Char :=
  match p.paragraphs with
  | some ps => joinSep ['\n'] ps
  | none =>
    match p.markdown with
    | some md => dropImageLines (stripHeadings md)
    | none => []

/-- Whether the page takes one of the two contributing branches with a
visible contribution (nonempty paragraph list, or markdown present). -/
def pageHasText (p : OcrPage) : Bool :=
  match p.paragraphs with
  | some ps => !ps.isEmpty
  | none => p.markdown.isSome

/-- Separator following a page's text in the transcript. -/
def pageSep (p : OcrPage) : List Char :=
  if pageHasText p then ['\n', '\n'] else ['\n']

/-- The spec's reading of the transcript: each page's text followed by its
separator, concatenated in page order. -/
def specTranscript : List OcrPage → List Char
  | [] => []
  | p :: ps => pageT p ++ pageSep p ++ specTranscript ps

/-- `bot.py` line 267: the pattern `f"![{img_name}]({img_name})"`. -/
def imageRefPattern (id : List Char) : List Char :=
  "![".data ++ id ++ "](".data ++ id ++ ")".data

/-- `bot.py` line 267: the replacement `f"![{img_name}]({base64_str})"`. -/
def imageRefReplacement (id b64 : List Char) : List Char :=
  "![".data ++ id ++ "](".data ++ b64 ++ ")".data

/-- `bot.py` lines 264-268 (`replace_images_in_markdown`): for each entry
of the image dictionary, in insertion order, replace every occurrence of
`![id](id)` by `![id](<base64>)`. -/
def replace_images_in_markdown (markdown_str : List Char)
    (images_dict : List (List Char × List Char)) : List Char :=
  images_dict.foldl
    (fun acc kv => pyReplace (imageRefPattern kv.1) (imageRefReplacement kv.1 kv.2) acc)
    markdown_str

/-- Python `dict` assignment `d[k] = v`: an existing key keeps its
position and gets the new value, a new key is appended. -/
def dictInsert (m : List (List Char × List Char)) (k v : List Char) :
    List (List Char × List Char) :=
  if m.any (fun kv => kv.1 == k) then
    m.map (fun kv => if kv.1 = k then (kv.1, v) else kv)
  else m ++ [(k, v)]

/-- `bot.py` lines 254-256: `image_data = {}` then
`image_data[img.id] = img.image_base64` for each image of the page. -/
def buildImageData (imgs : List OcrImage) : List (List Char × List Char) :=
  imgs.foldl (fun m i => dictInsert m i.id i.image_base64) []

/-- `bot.py` lines 252-260, for one page of `get_combined_markdown`:
if the `images` attribute is present, `page.markdown` is read
unconditionally (an absent `markdown` raises `AttributeError`, modelled as
`Except.error ()`); otherwise the page contributes its markdown when
present and is skipped when not. -/
def pageCombined (p : OcrPage) : Except Unit (Option (List Char)) :=
  match p.images with
  | some imgs =>
    match p.markdown with
    | some md => Except.ok (some (replace_images_in_markdown md (buildImageData imgs)))
    | none => Except.error ()
  | none =>
    match p.markdown with
    | some md => Except.ok (some md)
    | none => Except.ok none

/-- The `markdowns` list accumulated by `get_combined_markdown`
(`bot.py` lines 251-260); a raised error aborts the whole loop. -/
def combineMarkdowns : List OcrPage → Except Unit (List (List Char))
  | [] => Except.ok []
  | p :: ps =>
    match pageCombined p with
    | Except.error e => Except.error e
    | Except.ok none => combineMarkdowns ps
    | Except.ok (some md) => Except.map (fun ls => md :: ls) (combineMarkdowns ps)

/-- `bot.py` lines 249-262 (`get_combined_markdown`): the per-page
markdowns joined by `"\n\n"`. -/
def get_combined_markdown (pages : List OcrPage) : Except Unit (List Char) :=
  Except.map (fun ls => joinSep "\n\n".data ls) (combineMarkdowns pages)

/-- The NormalizedResult of a document: the plain-text transcript paired
with the combined markdown (`send_ocr_results`, `bot.py` lines 193-211). -/
def normalizeDocument (pages : List OcrPage) : Except Unit (List Char × List Char) :=
  Except.map (fun md => (text_content pages, md)) (get_combined_markdown pages)

/-- `bot.py` line 216: the fixed prefix of the inline preview message. -/
def previewPrefix : List Char :=
  "✅ Text extracted successfully! Here\x27s the content:\n\n".data

/-- `bot.py` line 217: the note appended when the transcript exceeds 4000
characters but still fits the preview. -/
def downloadNote : List Char :=
  "\n\n(Select \x27Download as file\x27 below for complete content)".data

/-- `bot.py` lines 220-223: the notice sent when the transcript is too
long to preview inline. -/
def tooLongNotice : List Char :=
  ("✅ Text extracted successfully! The content is too long to display here.\n" ++
   "Please use the buttons below to get the content as a file.").data

/-- What the status message is edited to after normalization. -/
inductive PreviewAction where
  | preview (msg : List Char)
  | tooLong (msg : List Char)
deriving DecidableEq

/-- `bot.py` lines 214-223: if `len(text_content) <= 4096` the status
message becomes the prefix plus `text_content[:4000]` (plus the download
note when more than 4000 characters exist), else the too-long notice. -/
def previewStep (t : List Char) : PreviewAction :=
  if t.length ≤ 4096 then
    PreviewAction.preview
      (previewPrefix ++ t.take 4000 ++ (if 4000 < t.length then downloadNote else []))
  else
    PreviewAction.tooLong tooLongNotice

/-- The message carried by a `PreviewAction`. -/
def previewShownText : PreviewAction → List Char
  | PreviewAction.preview m => m
  | PreviewAction.tooLong m => m

/-- `bot.py` lines 70 and 355: the extension allow-list
`['.pdf', '.jpg', '.jpeg', '.png']`. -/
def supportedExtensions : List (List Char) :=
  [".pdf".data, ".jpg".data, ".jpeg".data, ".png".data]

/-- `bot.py` lines 67/70 and 355: membership of the lower-cased extension
in the allow-list. -/
def isSupportedExtension (ext : List Char) : Bool :=
  supportedExtensions.any (fun s => lowerStr ext == s)

/-- Outcome of the extension gate of `process_document` / `link_command`. -/
inductive DocOutcome where
  | accepted
  | unsupportedFileType
deriving DecidableEq

/-- Network calls made by the pipeline after the extension gate. -/
inductive NetCall where
  | httpGet
  | uploadFile
  | getSignedUrl
  | ocrProcess
deriving DecidableEq

/-- `bot.py` lines 66-74: `process_document` rejects an unsupported
extension with the unsupported-file-type reply and returns. -/
def process_document_outcome (ext : List Char) : DocOutcome :=
  if isSupportedExtension ext then DocOutcome.accepted
  else DocOutcome.unsupportedFileType

/-- `bot.py` lines 76-99: the provider calls (`files.upload`,
`files.get_signed_url`, `ocr.process`) happen only on the accepted
branch; the unsupported branch returns before any of them. -/
def process_document_calls (ext : List Char) : List NetCall :=
  if isSupportedExtension ext then
    [NetCall.uploadFile, NetCall.getSignedUrl, NetCall.ocrProcess]
  else []

/-- Result of `urllib.parse.urlparse`: the fields the source inspects. -/
structure UrlParseResult where
  scheme : List Char
  netloc : List Char

/-- The reply chosen by the front part of `link_command`. -/
inductive LinkReply where
  | usageError
  | invalidUrl
  | invalidUrlFormat
  | proceed
deriving DecidableEq

/-- `bot.py` lines 303-321 (`link_command` before any network call):
no argument gives the usage reply; a `urlparse` exception gives the
format-error reply; an empty scheme or netloc gives the invalid-URL
reply.  `parse` models `urllib.parse.urlparse` (Python stdlib), with
`none` for a raised exception. -/
def link_precheck (parse : List Char → Option UrlParseResult)
    (args : List (List Char)) : LinkReply :=
  match args with
  | [] => LinkReply.usageError
  | url :: _ =>
    match parse url with
    | none => LinkReply.invalidUrlFormat
    | some r =>
      if r.scheme ≠ [] ∧ r.netloc ≠ [] then LinkReply.proceed
      else LinkReply.invalidUrl

/-- `bot.py` lines 326-392: the HTTP GET of the URL and the later
provider calls (`downstream`) happen only when the precheck proceeds. -/
def link_calls (parse : List Char → Option UrlParseResult)
    (args : List (List Char)) (downstream : List NetCall) : List NetCall :=
  match link_precheck parse args with
  | LinkReply.proceed => NetCall.httpGet :: downstream
  | _ => []

/-- `bot.py` lines 344-352: the fallback once
`mimetypes.guess_extension` yielded nothing — the filename's suffix, else
`.jpg` for an image content type and `.pdf` otherwise. -/
def deriveExtensionFallback (filenameSuffix contentType : List Char) : List Char :=
  if filenameSuffix = [] then
    if containsSub "image".data contentType then ".jpg".data else ".pdf".data
  else filenameSuffix

/-- `bot.py` lines 341-352: extension derivation for a URL download.
`guessed` models `mimetypes.guess_extension(content_type)` and
`filenameSuffix` models `Path(filename).suffix` (both Python stdlib);
Python truthiness makes `None` and the empty string fall through. -/
def deriveExtension (guessed : Option (List Char))
    (filenameSuffix contentType : List Char) : List Char :=
  match guessed with
  | some e =>
    if e = [] then deriveExtensionFallback filenameSuffix contentType else e
  | none => deriveExtensionFallback filenameSuffix contentType

theorem paraText_eq_joinSep (t : List Char) (ts : List (List Char)) :
    paraText (t :: ts) = joinSep ['\n'] (t :: ts) ++ ['\n'] := by
  induction ts generalizing t with
  | nil => simp [paraText, joinSep]
  | cons u us ih =>
    show t ++ '\n' :: paraText (u :: us) = joinSep ['\n'] (t :: u :: us) ++ ['\n']
    rw [ih u]
    show _ = (t ++ ['\n'] ++ joinSep ['\n'] (u :: us)) ++ ['\n']
    simp [List.append_assoc]

theorem pagePlain_append_nl (p : OcrPage) :
    pagePlain p ++ ['\n'] = pageT p ++ pageSep p := by
  rcases p with ⟨ps, md, imgs⟩
  cases ps with
  | some l =>
    cases l with
    | nil => simp [pagePlain, pageT, pageSep, pageHasText, paraText, joinSep]
    | cons t ts =>
      simp [pagePlain, pageT, pageSep, pageHasText, paraText_eq_joinSep,
        List.append_assoc]
  | none =>
    cases md with
    | some m => simp [pagePlain, pageT, pageSep, pageHasText, List.append_assoc]
    | none => simp [pagePlain, pageT, pageSep, pageHasText]

theorem text_content_eq_specTranscript (pages : List OcrPage) :
    text_content pages = specTranscript pages := by
  induction pages with
  | nil => rfl
  | cons p ps ih =>
    calc text_content (p :: ps)
        = (pagePlain p ++ ['\n']) ++ text_content ps := by
          simp [text_content, List.append_assoc]
      _ = (pageT p ++ pageSep p) ++ specTranscript ps := by
          rw [pagePlain_append_nl, ih]
      _ = specTranscript (p :: ps) := by
          simp [specTranscript, List.append_assoc]

theorem text_content_append (l₁ l₂ : List OcrPage) :
    text_content (l₁ ++ l₂) = text_content l₁ ++ text_content l₂ := by
  induction l₁ with
  | nil => rfl
  | cons p ps ih => simp [text_content, ih, List.append_assoc]

theorem charCount_append (c : Char) (l₁ l₂ : List Char) :
    charCount c (l₁ ++ l₂) = charCount c l₁ + charCount c l₂ := by
  induction l₁ with
  | nil => simp [charCount]
  | cons x xs ih => simp [charCount, ih]; omega

theorem charCount_replicate_self (c : Char) (n : Nat) :
    charCount c (List.replicate n c) = n := by
  induction n with
  | zero => rfl
  | succ k ih =>
    simp [List.replicate_succ, charCount, ih]
    omega

theorem charCount_le_of_isPrefixOf (c : Char) (l₁ l₂ : List Char)
    (h : l₁.isPrefixOf l₂ = true) : charCount c l₁ ≤ charCount c l₂ := by
  induction l₁ generalizing l₂ with
  | nil => simp [charCount]
  | cons a as ih =>
    cases l₂ with
    | nil => simp [List.isPrefixOf] at h
    | cons b bs =>
      simp only [List.isPrefixOf, Bool.and_eq_true, beq_iff_eq] at h
      obtain ⟨rfl, h2⟩ := h
      have := ih bs h2
      simp only [charCount]
      omega

theorem charCount_le_of_containsSub (c : Char) (pat s : List Char)
    (h : containsSub pat s = true) : charCount c pat ≤ charCount c s := by
  induction s with
  | nil =>
    cases pat with
    | nil => exact Nat.le_refl _
    | cons a as => simp [containsSub] at h
  | cons x xs ih =>
    simp only [containsSub, Bool.or_eq_true] at h
    rcases h with h | h
    · exact charCount_le_of_isPrefixOf c pat (x :: xs) h
    · calc charCount c pat ≤ charCount c xs := ih h
        _ ≤ charCount c (x :: xs) := by simp only [charCount]; omega

theorem isPrefixOf_append_self (r t : List Char) :
    r.isPrefixOf (r ++ t) = true := by
  induction r with
  | nil => simp [List.isPrefixOf]
  | cons a as ih => simp [List.isPrefixOf, ih]

theorem containsSub_of_isPrefixOf (pat s : List Char)
    (h : pat.isPrefixOf s = true) : containsSub pat s = true := by
  cases s with
  | nil =>
    cases pat with
    | nil => rfl
    | cons a as => simp [List.isPrefixOf] at h
  | cons c cs => simp [containsSub, h]

theorem containsSub_append_self (r t : List Char) :
    containsSub r (r ++ t) = true :=
  containsSub_of_isPrefixOf r (r ++ t) (isPrefixOf_append_self r t)

theorem containsSub_cons_of (pat : List Char) (c : Char) (cs : List Char)
    (h : containsSub pat cs = true) : containsSub pat (c :: cs) = true := by
  simp [containsSub, h]

theorem pyReplaceAux_contains_rep (pat rep : List Char) (fuel : Nat)
    (s : List Char) (hlen : s.length ≤ fuel)
    (h : containsSub pat s = true) :
    containsSub rep (pyReplaceAux pat rep fuel s) = true := by
  induction fuel generalizing s with
  | zero =>
    have hs : s = [] := List.eq_nil_of_length_eq_zero (Nat.le_zero.mp hlen)
    subst hs
    cases pat with
    | nil => simpa [pyReplaceAux] using containsSub_append_self rep []
    | cons a as => simp [containsSub] at h
  | succ f ih =>
    cases s with
    | nil =>
      cases pat with
      | nil => simpa [pyReplaceAux] using containsSub_append_self rep []
      | cons a as => simp [containsSub] at h
    | cons c cs =>
      by_cases hp : pat = []
      · have : pyReplaceAux pat rep (f + 1) (c :: cs) =
            rep ++ c :: pyReplaceAux pat rep f cs := by simp [pyReplaceAux, hp]
        rw [this]
        exact containsSub_append_self rep _
      · by_cases hpre : pat.isPrefixOf (c :: cs) = true
        · have : pyReplaceAux pat rep (f + 1) (c :: cs) =
              rep ++ pyReplaceAux pat rep f (List.drop (pat.length - 1) cs) := by
            simp [pyReplaceAux, hp, hpre]
          rw [this]
          exact containsSub_append_self rep _
        · have hstep : pyReplaceAux pat rep (f + 1) (c :: cs) =
              c :: pyReplaceAux pat rep f cs := by
            simp [pyReplaceAux, hp, hpre]
          have hcs : containsSub pat cs = true := by
            simp only [containsSub, Bool.or_eq_true] at h
            rcases h with h | h
            · exact absurd h hpre
            · exact h
          have hfl : cs.length ≤ f := by simpa using hlen
          rw [hstep]
          exact containsSub_cons_of rep c _ (ih cs hfl hcs)

theorem pyReplace_contains_rep (pat rep s : List Char)
    (h : containsSub pat s = true) :
    containsSub rep (pyReplace pat rep s) = true :=
  pyReplaceAux_contains_rep pat rep s.length s (Nat.le_refl _) h

/-- Claim C1: for every OCR document the plain-text normalization is the
concatenation, in page order, of each page's text `pageT` followed by its
separator; every separator is at least one line break, and every page
with a nonempty text is followed by a blank line (two line breaks), so
consecutive contributing pages are separated by a blank line. -/
theorem C1_plain_text_structure (pages : List OcrPage) (p : OcrPage) :
    text_content pages = specTranscript pages ∧
    (pageSep p = ['\n'] ∨ pageSep p = ['\n', '\n']) ∧
    (pageT p ≠ [] → pageSep p = ['\n', '\n']) := by
  refine ⟨text_content_eq_specTranscript pages, ?_, ?_⟩
  · by_cases h : pageHasText p = true
    · exact Or.inr (by simp [pageSep, h])
    · exact Or.inl (by simp [pageSep, h])
  · intro hT
    rcases p with ⟨ps, md, imgs⟩
    cases ps with
    | some l =>
      cases l with
      | nil => simp [pageT, joinSep] at hT
      | cons t ts => simp [pageSep, pageHasText]
    | none =>
      cases md with
      | some m => simp [pageSep, pageHasText]
      | none => simp [pageT] at hT

/-- Witness for C1 on a one-page document whose page contributes via its
markdown. -/
theorem C1_witness :
    text_content [OcrPage.mk none (some "Hi".data) none] =
      specTranscript [OcrPage.mk none (some "Hi".data) none] ∧
    pageSep (OcrPage.mk none (some "Hi".data) none) = ['\n', '\n'] :=
  ⟨(C1_plain_text_structure [OcrPage.mk none (some "Hi".data) none]
      (OcrPage.mk none (some "Hi".data) none)).1,
   (C1_plain_text_structure [OcrPage.mk none (some "Hi".data) none]
      (OcrPage.mk none (some "Hi".data) none)).2.2 (by decide)⟩

/-- Claim C2: a page whose plain-text contribution comes from its
markdown (paragraphs absent, markdown present) appends to the transcript
the markdown with the heading markers replaced away (in the source's
order `"# "`, `"## "`, `"### "`) and every line starting with `"!["` or
`"<img"` dropped, followed by the page separators. -/
theorem C2_markdown_fallback_contribution (pre post : List OcrPage)
    (p : OcrPage) (md : List Char)
    (hpar : p.paragraphs = none) (hmd : p.markdown = some md) :
    text_content (pre ++ p :: post) =
      text_content pre ++ dropImageLines (stripHeadings md) ++ ['\n', '\n'] ++
        text_content post := by
  rw [text_content_append]
  have hplain : pagePlain p = dropImageLines (stripHeadings md) ++ ['\n'] := by
    simp [pagePlain, hpar, hmd]
  show text_content pre ++ text_content (p :: post) = _
  rw [show text_content (p :: post) = pagePlain p ++ '\n' :: text_content post
      from rfl, hplain]
  simp [List.append_assoc]

/-- Witness for C2 on a markdown page with a heading and an image line. -/
theorem C2_witness :
    text_content ([] ++ OcrPage.mk none (some "# Title\n![x](x)\nBody".data) none :: []) =
      text_content [] ++
        dropImageLines (stripHeadings "# Title\n![x](x)\nBody".data) ++
        ['\n', '\n'] ++ text_content [] :=
  C2_markdown_fallback_contribution [] []
    (OcrPage.mk none (some "# Title\n![x](x)\nBody".data) none)
    "# Title\n![x](x)\nBody".data rfl rfl

/-- Claim C5: markdown normalization is the identity on a page whose
markdown is present and whose image map is empty or absent: the page's
contribution to the combined markdown is `page.markdown` unchanged. -/
theorem C5_no_images_identity (p : OcrPage) (md : List Char) (ps : List OcrPage)
    (hmd : p.markdown = some md) (himg : p.images = none ∨ p.images = some []) :
    pageCombined p = Except.ok (some md) ∧
    combineMarkdowns (p :: ps) =
      Except.map (fun ls => md :: ls) (combineMarkdowns ps) := by
  have hpc : pageCombined p = Except.ok (some md) := by
    rcases himg with h | h
    · simp [pageCombined, h, hmd]
    · simp [pageCombined, h, hmd, buildImageData, replace_images_in_markdown]
  exact ⟨hpc, by simp [combineMarkdowns, hpc]⟩

/-- Witness for C5 on a page with an empty image list. -/
theorem C5_witness :
    pageCombined (OcrPage.mk none (some "Hello".data) (some [])) =
        Except.ok (some "Hello".data) ∧
    combineMarkdowns [OcrPage.mk none (some "Hello".data) (some [])] =
      Except.map (fun ls => "Hello".data :: ls) (combineMarkdowns []) :=
  C5_no_images_identity (OcrPage.mk none (some "Hello".data) (some []))
    "Hello".data [] rfl (Or.inr rfl)

/-- Claim C7: for a well-formed zero-page response neither normalization
step fails and the NormalizedResult is a pair of empty strings. -/
theorem C7_zero_pages_empty_result :
    normalizeDocument [] = Except.ok ([], []) := rfl

/-- Claim C10: if any page of the document has the `images` attribute
present but no `markdown` populated, the combined-markdown normalization
reads the missing `markdown` field and raises instead of producing a
result — markdown presence is a hard precondition of the
image-substitution branch. -/
theorem C10_images_require_markdown (pages : List OcrPage) (p : OcrPage)
    (hmem : p ∈ pages) (himg : p.images.isSome = true) (hmd : p.markdown = none) :
    get_combined_markdown pages = Except.error () := by
  suffices h : ∀ pgs, p ∈ pgs → combineMarkdowns pgs = Except.error () by
    simp [get_combined_markdown, h pages hmem, Except.map]
  intro pgs
  induction pgs with
  | nil => intro hc; simp at hc
  | cons q qs ih =>
    intro hm
    rcases List.mem_cons.mp hm with rfl | hm2
    · have hq : pageCombined p = Except.error () := by
        obtain ⟨imgs, himgs⟩ := Option.isSome_iff_exists.mp himg
        simp [pageCombined, himgs, hmd]
      simp [combineMarkdowns, hq]
    · cases hq : pageCombined q with
      | error e => cases e; simp [combineMarkdowns, hq]
      | ok o =>
        cases o with
        | none => simp [combineMarkdowns, hq]; exact ih hm2
        | some m => simp [combineMarkdowns, hq, ih hm2, Except.map]

/-- Witness for C10 on a one-page document with images but no markdown. -/
theorem C10_witness :
    get_combined_markdown
      [OcrPage.mk none none (some [OcrImage.mk "x".data "b".data])] =
      Except.error () :=
  C10_images_require_markdown
    [OcrPage.mk none none (some [OcrImage.mk "x".data "b".data])]
    (OcrPage.mk none none (some [OcrImage.mk "x".data "b".data]))
    (List.mem_cons_self _ _) rfl rfl

/-- Claim C3 counterexample: the markdown `"(imgA)![imgA](imgA)"`
contains `"![imgA](imgA)"` (the claim's premise holds), yet after image
substitution with the map `{imgA: "BASE64"}` the result still contains
the substring `"(imgA)"` — the claim's assertion that it no longer occurs
is false when `"(imgA)"` also appears outside the image reference. -/
theorem C3_counterexample :
    containsSub "![imgA](imgA)".data "(imgA)![imgA](imgA)".data = true ∧
    containsSub "(imgA)".data
      (replace_images_in_markdown "(imgA)![imgA](imgA)".data
        [("imgA".data, "BASE64".data)]) = true := by
  constructor <;> decide

/-- Claim C3 (amended): with image map `{imgA: "BASE64"}`, any markdown
containing `"![imgA](imgA)"` normalizes to markdown containing
`"![imgA](BASE64)"`; and for the markdown consisting of the image
reference itself the result is exactly `"![imgA](BASE64)"`, which no
longer contains `"(imgA)"`. -/
theorem C3_amended_image_substitution :
    (∀ md : List Char, containsSub "![imgA](imgA)".data md = true →
      containsSub "![imgA](BASE64)".data
        (replace_images_in_markdown md [("imgA".data, "BASE64".data)]) = true) ∧
    replace_images_in_markdown "![imgA](imgA)".data
      [("imgA".data, "BASE64".data)] = "![imgA](BASE64)".data ∧
    containsSub "(imgA)".data "![imgA](BASE64)".data = false := by
  refine ⟨?_, by decide, by decide⟩
  intro md h
  have h1 : replace_images_in_markdown md [("imgA".data, "BASE64".data)] =
      pyReplace (imageRefPattern "imgA".data)
        (imageRefReplacement "imgA".data "BASE64".data) md := rfl
  have hpat : imageRefPattern "imgA".data = "![imgA](imgA)".data := by decide
  have hrep : imageRefReplacement "imgA".data "BASE64".data =
      "![imgA](BASE64)".data := by decide
  rw [h1, hpat, hrep]
  exact pyReplace_contains_rep _ _ md h

/-- Witness for the amended C3 on a markdown embedding the reference in
surrounding text. -/
theorem C3_witness :
    containsSub "![imgA](BASE64)".data
      (replace_images_in_markdown "Intro ![imgA](imgA) end".data
        [("imgA".data, "BASE64".data)]) = true :=
  C3_amended_image_substitution.1 "Intro ![imgA](imgA) end".data (by decide)

/-- Claim C4 counterexample: for the 4096-character transcript
`replicate 4096 'q'` the preview branch is taken (not the too-long
branch), but the message shown contains only the first 4000 characters —
the full transcript is not a substring of it, refuting "shows the
transcript in full". -/
theorem C4_counterexample :
    previewStep (List.replicate 4096 'q') ≠ PreviewAction.tooLong tooLongNotice ∧
    containsSub (List.replicate 4096 'q')
      (previewShownText (previewStep (List.replicate 4096 'q'))) = false := by
  have htake : (List.replicate 4096 'q').take 4000 = List.replicate 4000 'q' := by
    rw [List.take_replicate]
    norm_num
  have hlen : (List.replicate 4096 'q').length = 4096 := by
    rw [List.length_replicate]
  have hmsg : previewStep (List.replicate 4096 'q') =
      PreviewAction.preview
        (previewPrefix ++ List.replicate 4000 'q' ++ downloadNote) := by
    unfold previewStep
    rw [hlen, if_pos (by norm_num), htake, if_pos (by norm_num)]
  constructor
  · rw [hmsg]
    exact fun hcon => PreviewAction.noConfusion hcon
  · rw [hmsg]
    show containsSub (List.replicate 4096 'q')
      (previewPrefix ++ List.replicate 4000 'q' ++ downloadNote) = false
    cases hc : containsSub (List.replicate 4096 'q')
        (previewPrefix ++ List.replicate 4000 'q' ++ downloadNote) with
    | false => rfl
    | true =>
      exfalso
      have hle := charCount_le_of_containsSub 'q' _ _ hc
      rw [charCount_replicate_self, charCount_append, charCount_append,
        charCount_replicate_self] at hle
      have hp : charCount 'q' previewPrefix = 0 := by decide
      have hn : charCount 'q' downloadNote = 0 := by decide
      rw [hp, hn] at hle
      omega

/-- Claim C4 (amended): a transcript of exactly 4096 characters takes the
preview branch, whose message shows the first 4000 characters followed by
the download note (not the transcript in full); any transcript longer
than 4096 characters takes the too-long branch. -/
theorem C4_amended_preview_boundary (t : List Char) :
    (t.length = 4096 →
      previewStep t =
        PreviewAction.preview (previewPrefix ++ t.take 4000 ++ downloadNote)) ∧
    (4096 < t.length → previewStep t = PreviewAction.tooLong tooLongNotice) := by
  constructor
  · intro h
    simp [previewStep, h]
  · intro h
    have hn : ¬ (t.length ≤ 4096) := by omega
    simp [previewStep, hn]

/-- Witness for the amended C4 at lengths 4096 and 4097. -/
theorem C4_witness :
    previewStep (List.replicate 4096 'b') =
      PreviewAction.preview
        (previewPrefix ++ (List.replicate 4096 'b').take 4000 ++ downloadNote) ∧
    previewStep (List.replicate 4097 'b') = PreviewAction.tooLong tooLongNotice :=
  ⟨(C4_amended_preview_boundary (List.replicate 4096 'b')).1
      (by rw [List.length_replicate]),
   (C4_amended_preview_boundary (List.replicate 4097 'b')).2
      (by rw [List.length_replicate]; norm_num)⟩

/-- Claim C6: the extension gate accepts a resolved extension exactly
when its lower-cased form is `.pdf`, `.jpg`, `.jpeg` or `.png`; on the
rejected branch the handler makes none of the upload / signed-URL / OCR
calls. -/
theorem C6_extension_allowlist (ext : List Char) :
    (process_document_outcome ext = DocOutcome.accepted ↔
      (lowerStr ext = ".pdf".data ∨ lowerStr ext = ".jpg".data ∨
       lowerStr ext = ".jpeg".data ∨ lowerStr ext = ".png".data)) ∧
    (process_document_outcome ext = DocOutcome.unsupportedFileType →
      process_document_calls ext = []) := by
  have hiff : isSupportedExtension ext = true ↔
      (lowerStr ext = ".pdf".data ∨ lowerStr ext = ".jpg".data ∨
       lowerStr ext = ".jpeg".data ∨ lowerStr ext = ".png".data) := by
    simp [isSupportedExtension, supportedExtensions]
  have hout : process_document_outcome ext = DocOutcome.accepted ↔
      isSupportedExtension ext = true := by
    unfold process_document_outcome
    by_cases h : isSupportedExtension ext = true <;> simp [h]
  refine ⟨hout.trans hiff, ?_⟩
  intro h
  have hfalse : isSupportedExtension ext = false := by
    cases hb : isSupportedExtension ext with
    | false => rfl
    | true =>
      rw [process_document_outcome, if_pos hb] at h
      simp at h
  simp [process_document_calls, hfalse]

/-- Witness for C6 on the unsupported extension `.TXT`. -/
theorem C6_witness :
    process_document_outcome ".TXT".data = DocOutcome.unsupportedFileType ∧
    process_document_calls ".TXT".data = [] := by
  have h1 : process_document_outcome ".TXT".data = DocOutcome.unsupportedFileType := by
    decide
  exact ⟨h1, (C6_extension_allowlist ".TXT".data).2 h1⟩

/-- Claim C8: `/link` with no argument yields the usage reply and no
network call; an argument whose parse raises or yields an empty scheme or
netloc yields an invalid-URL reply and likewise no download or provider
call. -/
theorem C8_link_precheck_guards (parse : List Char → Option UrlParseResult)
    (args : List (List Char)) (downstream : List NetCall) :
    (args = [] →
      link_precheck parse args = LinkReply.usageError ∧
      link_calls parse args downstream = []) ∧
    (∀ url rest, args = url :: rest →
      (parse url = none ∨
        ∃ r, parse url = some r ∧ (r.scheme = [] ∨ r.netloc = [])) →
      (link_precheck parse args = LinkReply.invalidUrl ∨
       link_precheck parse args = LinkReply.invalidUrlFormat) ∧
      link_calls parse args downstream = []) := by
  constructor
  · rintro rfl
    exact ⟨rfl, rfl⟩
  · rintro url rest rfl hbad
    have hrep : link_precheck parse (url :: rest) = LinkReply.invalidUrl ∨
        link_precheck parse (url :: rest) = LinkReply.invalidUrlFormat := by
      rcases hbad with hnone | ⟨r, hr, hempty⟩
      · right
        simp [link_precheck, hnone]
      · left
        have hneg : ¬ (r.scheme ≠ [] ∧ r.netloc ≠ []) := by
          rcases hempty with h | h
          · intro hcontra
            exact hcontra.1 h
          · intro hcontra
            exact hcontra.2 h
        simp [link_precheck, hr, if_neg hneg]
    refine ⟨hrep, ?_⟩
    rcases hrep with h | h <;> simp [link_calls, h]

/-- Witness for C8 with a parse function that raises. -/
theorem C8_witness :
    (link_precheck (fun _ => none) ["x".data] = LinkReply.invalidUrl ∨
     link_precheck (fun _ => none) ["x".data] = LinkReply.invalidUrlFormat) ∧
    link_calls (fun _ => none) ["x".data] [NetCall.uploadFile] = [] :=
  (C8_link_precheck_guards (fun _ => none) ["x".data] [NetCall.uploadFile]).2
    "x".data [] rfl (Or.inl rfl)

/-- Claim C9: the extension of a URL download follows the exact fallback
chain — the MIME-derived extension when nonempty, else the filename's
suffix when nonempty, else `.jpg` when the content type contains
`"image"` and `.pdf` otherwise. -/
theorem C9_extension_fallback_chain (guessed : Option (List Char))
    (filenameSuffix contentType : List Char) :
    (∀ e, guessed = some e → e ≠ [] →
      deriveExtension guessed filenameSuffix contentType = e) ∧
    ((guessed = none ∨ guessed = some []) → filenameSuffix ≠ [] →
      deriveExtension guessed filenameSuffix contentType = filenameSuffix) ∧
    ((guessed = none ∨ guessed = some []) → filenameSuffix = [] →
      deriveExtension guessed filenameSuffix contentType =
        (if containsSub "image".data contentType then ".jpg".data
         else ".pdf".data)) := by
  refine ⟨?_, ?_, ?_⟩
  · rintro e rfl he
    simp [deriveExtension, he]
  · rintro (rfl | rfl) hfs <;> simp [deriveExtension, deriveExtensionFallback, hfs]
  · rintro (rfl | rfl) rfl <;> simp [deriveExtension, deriveExtensionFallback]

/-- Witness for C9: no MIME extension, no filename suffix, image content
type defaults to `.jpg`. -/
theorem C9_witness :
    deriveExtension none [] "image/png".data = ".jpg".data := by
  have h := (C9_extension_fallback_chain none [] "image/png".data).2.2
    (Or.inl rfl) rfl
  rw [h, if_pos (by decide)]
